import Mathlib

/-!
Verification of the IMU preintegration engine of
`gtsam/navigation/ImuFactor.cpp` (inner class
`ImuFactor::PreintegratedMeasurements`) against its specification.

Modelling choices:

* Matrices over an abstract linearly ordered field `α` stand for the
  `double`-valued Eigen matrices of the source; integer instantiations are
  used for concrete evaluations.
* The collaborators that `ImuFactor.cpp` calls but whose bodies live in other
  translation units (the `Rot3` manifold primitives, and the
  `PreintegrationBase` members `correctMeasurementsByBiasAndSensorPose`,
  `updatePreintegratedJacobians`, `updatePreintegratedMeasurements`) are kept
  abstract: they are passed in as a `Collaborators` record, and every theorem
  quantifies over them.  Their *signatures* (which part of the state they may
  read and write) are modelled from the spec, as noted on each declaration.
* `integrateMeasurement` is translated line by line from
  `ImuFactor.cpp:68-133`; the intermediate quantities of one call are
  collected in a `StepContext` record so that theorems can refer to them.
-/

open Matrix

/-- Column vectors in ℝ³ (`gtsam::Vector3`). -/
abbrev Vec3 (α : Type) : Type := Fin 3 → α

/-- 3×3 matrices (`gtsam::Matrix3`). -/
abbrev Mat3 (α : Type) : Type := Matrix (Fin 3) (Fin 3) α

/-- 9×9 matrices (`Eigen::Matrix<double,9,9>`). -/
abbrev Mat9 (α : Type) : Type := Matrix (Fin 9) (Fin 9) α

/-- Row/column `3*b + i` of a 9×9 matrix: entry `i` of block `b`, matching the
`block<3,3>(3*b, 3*b')` addressing used at ImuFactor.cpp:41-43. -/
def bIdx (b i : Fin 3) : Fin 9 := ⟨3 * b.val + i.val, by omega⟩

/-- Assemble a 9×9 matrix from a 3×3 grid of 3×3 blocks, the way the source
fills 9×9 matrices block-wise (comma initialisation at ImuFactor.cpp:106-108
and `block<3,3>` writes at ImuFactor.cpp:41-43). -/
def fromBlocks9 {α : Type} (M : Fin 3 → Fin 3 → Mat3 α) : Mat9 α :=
  Matrix.of fun p q =>
    M ⟨p.val / 3, by omega⟩ ⟨q.val / 3, by omega⟩ ⟨p.val % 3, by omega⟩ ⟨q.val % 3, by omega⟩

/-- Cross-product matrix `gtsam::skewSymmetric` (gtsam/base, not under src/):
the standard 3×3 skew-symmetric matrix of a vector, as called at
ImuFactor.cpp:100. -/
def skewSymmetric {α : Type} [LinearOrderedCommRing α] (v : Vec3 α) : Mat3 α :=
  !![0, -v 2, v 1; v 2, 0, -v 0; -v 1, v 0, 0]

/-- Accelerometer/gyroscope bias pair (`imuBias::ConstantBias`, not under
src/; only its role as an opaque reference value is needed). -/
structure ConstantBias (α : Type) where
  accelerometer : Vec3 α
  gyroscope : Vec3 α

/-- Modelled from the spec: the 9-dimensional TangentState of §3 — the
accumulated relative position, velocity and rotation (so(3) coordinates) plus
the elapsed time, owned by `PreintegrationBase` (not under src/). -/
structure TangentState (α : Type) where
  deltaPij : Vec3 α
  deltaVij : Vec3 α
  thetaRij : Vec3 α
  deltaTij : α

/-- Modelled from the spec: the accumulated bias-sensitivity Jacobians
∂ζ/∂bias of §3, owned by `PreintegrationBase` (not under src/). -/
structure BiasJacobians (α : Type) where
  delPdelBiasAcc : Mat3 α
  delPdelBiasOmega : Mat3 α
  delVdelBiasAcc : Mat3 α
  delVdelBiasOmega : Mat3 α
  delRdelBiasOmega : Mat3 α

/-- Modelled from the spec: the state owned by the base class
`PreintegrationBase` (not under src/): the bias reference, the second-order
integration flag, the TangentState and the bias-sensitivity Jacobians. -/
structure PreintegrationBase (α : Type) where
  biasHat : ConstantBias α
  use2ndOrderIntegration : Bool
  tangent : TangentState α
  jacobians : BiasJacobians α

/-- The all-zero TangentState (start of an integration interval). -/
def zeroTangentState {α : Type} [LinearOrderedCommRing α] : TangentState α :=
  { deltaPij := 0, deltaVij := 0, thetaRij := 0, deltaTij := 0 }

/-- The all-zero bias-sensitivity Jacobians (start of an interval). -/
def zeroBiasJacobians {α : Type} [LinearOrderedCommRing α] : BiasJacobians α :=
  { delPdelBiasAcc := 0, delPdelBiasOmega := 0, delVdelBiasAcc := 0,
    delVdelBiasOmega := 0, delRdelBiasOmega := 0 }

/-- Modelled from the spec: the `PreintegrationBase(bias, use2ndOrderIntegration)`
constructor (not under src/) stores the bias reference and flag and zeroes the
accumulated quantities (§3: "Created zeroed at the start of an interval"). -/
def mkPreintegrationBase {α : Type} [LinearOrderedCommRing α]
    (bias : ConstantBias α) (use2ndOrderIntegration : Bool) : PreintegrationBase α :=
  { biasHat := bias, use2ndOrderIntegration := use2ndOrderIntegration,
    tangent := zeroTangentState, jacobians := zeroBiasJacobians }

/-- Modelled from the spec: `PreintegrationBase::resetIntegration` (not under
src/) zeroes the TangentState and the bias-sensitivity Jacobians and does not
alter the bias or configuration (§4.1 Reset). -/
def resetIntegrationBase {α : Type} [LinearOrderedCommRing α]
    (s : PreintegrationBase α) : PreintegrationBase α :=
  { s with tangent := zeroTangentState, jacobians := zeroBiasJacobians }

/-- The SO(3) primitives consumed from the rotation library (out of scope per
spec §6, "assumed as a correct, already-available library"); kept abstract.
`rotInverse` is composition of `Rot3::inverse` with `.matrix()`. -/
structure Rot3Lib (α : Type) where
  Expmap : Vec3 α → Mat3 α
  rightJacobianExpMapSO3 : Vec3 α → Mat3 α
  rightJacobianExpMapSO3inverse : Vec3 α → Mat3 α
  rotInverse : Mat3 α → Mat3 α

/-- The `PreintegrationBase` member functions called by
`ImuFactor::PreintegratedMeasurements::integrateMeasurement` whose bodies are
not under src/, kept abstract.  Their signatures are modelled from the spec:
`updatePreintegratedJacobians` may read the whole base state but updates only
the bias-sensitivity Jacobians (§4.1 step 3), and
`updatePreintegratedMeasurements` advances only the TangentState
(§4.1 step 4).  `correctMeasurementsByBiasAndSensorPose` (with any sensor
pose baked in) maps the raw measurement pair to the corrected pair
(§4.1 step 1). -/
structure Collaborators (α : Type) where
  rot : Rot3Lib α
  correctMeasurementsByBiasAndSensorPose : Vec3 α → Vec3 α → Vec3 α × Vec3 α
  updatePreintegratedJacobians : Vec3 α → Mat3 α → Mat3 α → α → PreintegrationBase α → BiasJacobians α
  updatePreintegratedMeasurements : Vec3 α → Mat3 α → α → TangentState α → TangentState α

/-- State of `ImuFactor::PreintegratedMeasurements` (ImuFactor.h):
the base-class state plus the two 9×9 matrices owned by the subclass,
`measurementCovariance_` and `preintMeasCov_`. -/
structure PreintegratedMeasurements (α : Type) where
  base : PreintegrationBase α
  measurementCovariance_ : Mat9 α
  preintMeasCov_ : Mat9 α

/-- Block grid of `measurementCovariance_` as assembled by the constructor at
ImuFactor.cpp:40-43: integration-error block at (0,0), accelerometer block at
(1,1), gyroscope block at (2,2), zero elsewhere. -/
def measCovBlocks {α : Type} [LinearOrderedCommRing α]
    (integrationErrorCovariance measuredAccCovariance measuredOmegaCovariance : Mat3 α) :
    Fin 3 → Fin 3 → Mat3 α :=
  fun b1 b2 =>
    if b1 = b2 then
      (if b1 = 0 then integrationErrorCovariance
       else if b1 = 1 then measuredAccCovariance
       else measuredOmegaCovariance)
    else 0

/-- Constructor `ImuFactor::PreintegratedMeasurements::PreintegratedMeasurements`
(ImuFactor.cpp:34-45): delegates to the base constructor, assembles the
block-diagonal `measurementCovariance_`, and zeroes `preintMeasCov_`. -/
def mkPreintegratedMeasurements {α : Type} [LinearOrderedCommRing α]
    (bias : ConstantBias α)
    (measuredAccCovariance measuredOmegaCovariance integrationErrorCovariance : Mat3 α)
    (use2ndOrderIntegration : Bool) : PreintegratedMeasurements α :=
  { base := mkPreintegrationBase bias use2ndOrderIntegration
    measurementCovariance_ :=
      fromBlocks9 (measCovBlocks integrationErrorCovariance measuredAccCovariance measuredOmegaCovariance)
    preintMeasCov_ := 0 }

/-- `ImuFactor::PreintegratedMeasurements::resetIntegration`
(ImuFactor.cpp:62-65): base-class reset followed by `preintMeasCov_.setZero()`. -/
def resetIntegration {α : Type} [LinearOrderedCommRing α]
    (s : PreintegratedMeasurements α) : PreintegratedMeasurements α :=
  { s with base := resetIntegrationBase s.base, preintMeasCov_ := 0 }

/-- Block grid of the 9×9 transition matrix F assembled at
ImuFactor.cpp:104-108 (rows: pos, vel, angle). -/
def FBlocks {α : Type} [LinearOrderedCommRing α]
    (deltaT : α) (H_vel_angles H_angles_angles : Mat3 α) : Fin 3 → Fin 3 → Mat3 α :=
  fun b1 b2 =>
    if b1 = 0 then (if b2 = 0 then 1 else if b2 = 1 then deltaT • (1 : Mat3 α) else 0)
    else if b1 = 1 then (if b2 = 1 then 1 else if b2 = 2 then H_vel_angles else 0)
    else if b2 = 2 then H_angles_angles else 0

/-- Block grid of the noise-input matrix `G_test` assembled at
ImuFactor.cpp:126-130 (columns: intNoise, accNoise, omegaNoise). -/
def GBlocks {α : Type} [LinearOrderedCommRing α]
    (deltaT : α) (R_i JrinvJrincr : Mat3 α) : Fin 3 → Fin 3 → Mat3 α :=
  fun b1 b2 =>
    if b1 = 0 ∧ b2 = 0 then deltaT • (1 : Mat3 α)
    else if b1 = 1 ∧ b2 = 1 then deltaT • R_i
    else if b1 = 2 ∧ b2 = 2 then deltaT • JrinvJrincr
    else 0

/-- The intermediate quantities of one `integrateMeasurement` call
(ImuFactor.cpp:68-133), named as in the source. -/
structure StepContext (α : Type) where
  correctedAcc : Vec3 α
  correctedOmega : Vec3 α
  theta_incr : Vec3 α
  Rincr : Mat3 α
  Jr_theta_incr : Mat3 α
  baseAfterJacobians : PreintegrationBase α
  theta_i : Vec3 α
  R_i : Mat3 α
  Jr_theta_i : Mat3 α
  baseAfterMeasurements : PreintegrationBase α
  theta_j : Vec3 α
  Jrinv_theta_j : Mat3 α
  H_vel_angles : Mat3 α
  H_angles_angles : Mat3 α
  F : Mat9 α
  G : Mat9 α

/-- Line-by-line translation of the body of
`ImuFactor::PreintegratedMeasurements::integrateMeasurement`
(ImuFactor.cpp:68-108 plus the `G_test` assembly of 126-130):
correct the measurements, form the rotation increment and its right Jacobian,
update the Jacobians (before the tangent state: cpp:85), read `theta_i`,
`deltaRij` and `Jr_theta_i` (cpp:90-92), advance the tangent state (cpp:95),
read `theta_j` and its inverse right Jacobian (cpp:97-98), and assemble
`H_vel_angles`, `H_angles_angles`, F and G (cpp:100-108, 126-130). -/
def mkStepContext {α : Type} [LinearOrderedCommRing α]
    (C : Collaborators α) (s : PreintegratedMeasurements α)
    (measuredAcc measuredOmega : Vec3 α) (deltaT : α) : StepContext α :=
  let corrected := C.correctMeasurementsByBiasAndSensorPose measuredAcc measuredOmega
  let correctedAcc := corrected.1
  let correctedOmega := corrected.2
  let theta_incr := deltaT • correctedOmega
  let Rincr := C.rot.Expmap theta_incr
  let Jr_theta_incr := C.rot.rightJacobianExpMapSO3 theta_incr
  let base1 : PreintegrationBase α :=
    { s.base with
      jacobians := C.updatePreintegratedJacobians correctedAcc Jr_theta_incr Rincr deltaT s.base }
  let theta_i := base1.tangent.thetaRij
  let R_i := C.rot.Expmap theta_i
  let Jr_theta_i := C.rot.rightJacobianExpMapSO3 theta_i
  let base2 : PreintegrationBase α :=
    { base1 with
      tangent := C.updatePreintegratedMeasurements correctedAcc Rincr deltaT base1.tangent }
  let theta_j := base2.tangent.thetaRij
  let Jrinv_theta_j := C.rot.rightJacobianExpMapSO3inverse theta_j
  let H_vel_angles := -(deltaT • (R_i * skewSymmetric correctedAcc * Jr_theta_i))
  let H_angles_angles := Jrinv_theta_j * C.rot.rotInverse Rincr * Jr_theta_i
  { correctedAcc := correctedAcc, correctedOmega := correctedOmega,
    theta_incr := theta_incr, Rincr := Rincr, Jr_theta_incr := Jr_theta_incr,
    baseAfterJacobians := base1, theta_i := theta_i, R_i := R_i,
    Jr_theta_i := Jr_theta_i, baseAfterMeasurements := base2, theta_j := theta_j,
    Jrinv_theta_j := Jrinv_theta_j, H_vel_angles := H_vel_angles,
    H_angles_angles := H_angles_angles,
    F := fromBlocks9 (FBlocks deltaT H_vel_angles H_angles_angles),
    G := fromBlocks9 (GBlocks deltaT R_i (Jrinv_theta_j * Jr_theta_incr)) }

/-- `ImuFactor::PreintegratedMeasurements::integrateMeasurement`
(ImuFactor.cpp:68-133).  Returns the updated object together with the two
optional test outputs (`F_test`, `G_test`); `wantF`/`wantG` model whether the
optional output arguments were supplied.  The covariance propagation is
cpp:114: `preintMeasCov_ = F * preintMeasCov_ * F.transpose() +
measurementCovariance_ * deltaT`. -/
def integrateMeasurement {α : Type} [LinearOrderedCommRing α]
    (C : Collaborators α) (s : PreintegratedMeasurements α)
    (measuredAcc measuredOmega : Vec3 α) (deltaT : α) (wantF wantG : Bool) :
    PreintegratedMeasurements α × Option (Mat9 α) × Option (Mat9 α) :=
  let c := mkStepContext C s measuredAcc measuredOmega deltaT
  let newCov := c.F * s.preintMeasCov_ * c.F.transpose + deltaT • s.measurementCovariance_
  ({ s with base := c.baseAfterMeasurements, preintMeasCov_ := newCov },
   if wantF then some c.F else none,
   if wantG then some c.G else none)

/-- Entries of `fromBlocks9` at block addresses. -/
theorem fromBlocks9_apply {α : Type} (M : Fin 3 → Fin 3 → Mat3 α) (b1 b2 i j : Fin 3) :
    fromBlocks9 M (bIdx b1 i) (bIdx b2 j) = M b1 b2 i j := by
  fin_cases b1 <;> fin_cases b2 <;> fin_cases i <;> fin_cases j <;> rfl

/-- `integrateMeasurement` as a fold step over a stream of
`(measuredAcc, measuredOmega, deltaT)` samples, as in the sequential
per-sample protocol of spec §4.1. -/
def integrateStep {α : Type} [LinearOrderedCommRing α] (C : Collaborators α)
    (s : PreintegratedMeasurements α) (m : Vec3 α × Vec3 α × α) :
    PreintegratedMeasurements α :=
  (integrateMeasurement C s m.1 m.2.1 m.2.2 false false).1

/-- The first-order propagation `F·P·Fᵀ + Δt·Q` preserves symmetry. -/
theorem propagation_isSymm {α : Type} [LinearOrderedCommRing α]
    (F P Q : Mat9 α) (deltaT : α) (hP : P.IsSymm) (hQ : Q.IsSymm) :
    (F * P * F.transpose + deltaT • Q).IsSymm := by
  have hP' : P.transpose = P := hP
  have hQ' : Q.transpose = Q := hQ
  show (F * P * F.transpose + deltaT • Q).transpose = F * P * F.transpose + deltaT • Q
  rw [Matrix.transpose_add, Matrix.transpose_smul, hQ', Matrix.transpose_mul,
    Matrix.transpose_mul, Matrix.transpose_transpose, hP', ← Matrix.mul_assoc]

/-- One `integrateMeasurement` call preserves symmetry of `preintMeasCov_`
when `measurementCovariance_` is symmetric. -/
theorem integrateStep_isSymm {α : Type} [LinearOrderedCommRing α]
    (C : Collaborators α) (s : PreintegratedMeasurements α)
    (m : Vec3 α × Vec3 α × α)
    (hP : s.preintMeasCov_.IsSymm) (hQ : s.measurementCovariance_.IsSymm) :
    ((integrateStep C s m).preintMeasCov_).IsSymm :=
  propagation_isSymm _ _ _ _ hP hQ

/-- Folding any sample stream through `integrateMeasurement` preserves
symmetry of `preintMeasCov_`. -/
theorem foldl_integrate_isSymm {α : Type} [LinearOrderedCommRing α]
    (C : Collaborators α) (samples : List (Vec3 α × Vec3 α × α))
    (s : PreintegratedMeasurements α)
    (hP : s.preintMeasCov_.IsSymm) (hQ : s.measurementCovariance_.IsSymm) :
    ((samples.foldl (integrateStep C) s).preintMeasCov_).IsSymm := by
  induction samples generalizing s with
  | nil => exact hP
  | cons m rest ih =>
    exact ih (integrateStep C s m) (integrateStep_isSymm C s m hP hQ) hQ

/-- The block-diagonal `measurementCovariance_` assembled by the constructor
is symmetric when its three blocks are. -/
theorem measurementCovariance_isSymm {α : Type} [LinearOrderedCommRing α]
    (iC aC gC : Mat3 α) (hi : iC.IsSymm) (ha : aC.IsSymm) (hg : gC.IsSymm) :
    (fromBlocks9 (measCovBlocks iC aC gC)).IsSymm := by
  show (fromBlocks9 (measCovBlocks iC aC gC)).transpose = fromBlocks9 (measCovBlocks iC aC gC)
  ext p q
  simp only [Matrix.transpose_apply, fromBlocks9, Matrix.of_apply, measCovBlocks]
  rcases eq_or_ne (⟨p.val / 3, by omega⟩ : Fin 3) (⟨q.val / 3, by omega⟩ : Fin 3) with h | h
  · rw [if_pos h.symm, if_pos h, ← h]
    split_ifs with h0 h1
    · exact hi.apply _ _
    · exact ha.apply _ _
    · exact hg.apply _ _
  · rw [if_neg h.symm, if_neg h]
    simp

/-- Trivial integer instantiation of the abstract collaborators (identity
rotation primitives, pure bias pass-through, jacobians and tangent held
fixed), used only to instantiate universally quantified theorems at concrete
inputs. -/
def trivialCollaborators : Collaborators ℤ :=
  { rot := { Expmap := fun _ => 1, rightJacobianExpMapSO3 := fun _ => 1,
             rightJacobianExpMapSO3inverse := fun _ => 1,
             rotInverse := fun M => M.transpose },
    correctMeasurementsByBiasAndSensorPose := fun a w => (a, w),
    updatePreintegratedJacobians := fun _ _ _ _ s => s.jacobians,
    updatePreintegratedMeasurements := fun _ _ _ t => t }

/-- A freshly constructed integer `PreintegratedMeasurements` with identity
noise blocks and zero bias. -/
def freshState : PreintegratedMeasurements ℤ :=
  mkPreintegratedMeasurements { accelerometer := 0, gyroscope := 0 } 1 1 1 false

/-- Claim C1: every call to `integrateMeasurement` updates the accumulated
9×9 covariance exactly by `P ← F·P·Fᵀ + Q·Δt` (ImuFactor.cpp:114), where `Q`
is the block-diagonal `measurementCovariance_` assembled at construction with
the integration-error block at rows/columns 0-2, the accelerometer block at
3-5, and the gyroscope block at 6-8 (ImuFactor.cpp:40-44). -/
theorem integrateMeasurement_covariance_update {α : Type} [LinearOrderedCommRing α]
    (C : Collaborators α) (s : PreintegratedMeasurements α)
    (measuredAcc measuredOmega : Vec3 α) (deltaT : α) (wantF wantG : Bool)
    (bias : ConstantBias α) (accCov omegaCov intCov : Mat3 α) (flag : Bool) :
    (integrateMeasurement C s measuredAcc measuredOmega deltaT wantF wantG).1.preintMeasCov_ =
      (mkStepContext C s measuredAcc measuredOmega deltaT).F * s.preintMeasCov_ *
        (mkStepContext C s measuredAcc measuredOmega deltaT).F.transpose +
        deltaT • s.measurementCovariance_ ∧
    (∀ i j : Fin 3,
      (mkPreintegratedMeasurements bias accCov omegaCov intCov flag).measurementCovariance_
          (bIdx 0 i) (bIdx 0 j) = intCov i j ∧
      (mkPreintegratedMeasurements bias accCov omegaCov intCov flag).measurementCovariance_
          (bIdx 1 i) (bIdx 1 j) = accCov i j ∧
      (mkPreintegratedMeasurements bias accCov omegaCov intCov flag).measurementCovariance_
          (bIdx 2 i) (bIdx 2 j) = omegaCov i j) ∧
    (∀ b1 b2 i j : Fin 3, b1 ≠ b2 →
      (mkPreintegratedMeasurements bias accCov omegaCov intCov flag).measurementCovariance_
          (bIdx b1 i) (bIdx b2 j) = 0) := by
  have hQ : (mkPreintegratedMeasurements bias accCov omegaCov intCov flag).measurementCovariance_ =
      fromBlocks9 (measCovBlocks intCov accCov omegaCov) := rfl
  refine ⟨rfl, fun i j => ?_, fun b1 b2 i j h => ?_⟩
  · rw [hQ, fromBlocks9_apply, fromBlocks9_apply, fromBlocks9_apply]
    exact ⟨rfl, rfl, rfl⟩
  · rw [hQ, fromBlocks9_apply]
    simp [measCovBlocks, h]

/-- Concrete instantiation of `integrateMeasurement_covariance_update`: the
velocity/orientation off-diagonal block of a freshly assembled
`measurementCovariance_` is zero. -/
theorem integrateMeasurement_covariance_update_witness :
    (mkPreintegratedMeasurements { accelerometer := (0 : Vec3 ℤ), gyroscope := 0 } 1 1 1
      false).measurementCovariance_ (bIdx 1 0) (bIdx 2 0) = 0 :=
  ((integrateMeasurement_covariance_update trivialCollaborators freshState 0 0 1 false false
      { accelerometer := 0, gyroscope := 0 } 1 1 1 false).2.2) 1 2 0 0 (by decide)

/-- Claim C2: in every call to `integrateMeasurement`, the 9×9 transition
matrix F (ImuFactor.cpp:104-108) has position row `[I, I·Δt, 0]`, velocity
row `[0, I, −R_i·skew(correctedAcc)·Jr(θ_i)·Δt]` with the pre-update rotation
θ_i, orientation row `[0, 0, Jr⁻¹(θ_j)·Rincr⁻¹·Jr(θ_i)]` with the post-update
rotation θ_j, and every other off-diagonal block zero. -/
theorem transition_matrix_blocks {α : Type} [LinearOrderedCommRing α]
    (C : Collaborators α) (s : PreintegratedMeasurements α)
    (measuredAcc measuredOmega : Vec3 α) (deltaT : α) :
    ∀ i j : Fin 3,
      (mkStepContext C s measuredAcc measuredOmega deltaT).F (bIdx 0 i) (bIdx 0 j) =
        (1 : Mat3 α) i j ∧
      (mkStepContext C s measuredAcc measuredOmega deltaT).F (bIdx 0 i) (bIdx 1 j) =
        (deltaT • (1 : Mat3 α)) i j ∧
      (mkStepContext C s measuredAcc measuredOmega deltaT).F (bIdx 0 i) (bIdx 2 j) = 0 ∧
      (mkStepContext C s measuredAcc measuredOmega deltaT).F (bIdx 1 i) (bIdx 0 j) = 0 ∧
      (mkStepContext C s measuredAcc measuredOmega deltaT).F (bIdx 1 i) (bIdx 1 j) =
        (1 : Mat3 α) i j ∧
      (mkStepContext C s measuredAcc measuredOmega deltaT).F (bIdx 1 i) (bIdx 2 j) =
        (-(deltaT • (C.rot.Expmap s.base.tangent.thetaRij *
            skewSymmetric (C.correctMeasurementsByBiasAndSensorPose measuredAcc measuredOmega).1 *
            C.rot.rightJacobianExpMapSO3 s.base.tangent.thetaRij))) i j ∧
      (mkStepContext C s measuredAcc measuredOmega deltaT).F (bIdx 2 i) (bIdx 0 j) = 0 ∧
      (mkStepContext C s measuredAcc measuredOmega deltaT).F (bIdx 2 i) (bIdx 1 j) = 0 ∧
      (mkStepContext C s measuredAcc measuredOmega deltaT).F (bIdx 2 i) (bIdx 2 j) =
        (C.rot.rightJacobianExpMapSO3inverse
            (C.updatePreintegratedMeasurements
              (C.correctMeasurementsByBiasAndSensorPose measuredAcc measuredOmega).1
              (C.rot.Expmap (deltaT •
                (C.correctMeasurementsByBiasAndSensorPose measuredAcc measuredOmega).2))
              deltaT s.base.tangent).thetaRij *
          C.rot.rotInverse (C.rot.Expmap (deltaT •
            (C.correctMeasurementsByBiasAndSensorPose measuredAcc measuredOmega).2)) *
          C.rot.rightJacobianExpMapSO3 s.base.tangent.thetaRij) i j := by
  intro i j
  have hF : (mkStepContext C s measuredAcc measuredOmega deltaT).F =
      fromBlocks9 (FBlocks deltaT
        (-(deltaT • (C.rot.Expmap s.base.tangent.thetaRij *
            skewSymmetric (C.correctMeasurementsByBiasAndSensorPose measuredAcc measuredOmega).1 *
            C.rot.rightJacobianExpMapSO3 s.base.tangent.thetaRij)))
        (C.rot.rightJacobianExpMapSO3inverse
            (C.updatePreintegratedMeasurements
              (C.correctMeasurementsByBiasAndSensorPose measuredAcc measuredOmega).1
              (C.rot.Expmap (deltaT •
                (C.correctMeasurementsByBiasAndSensorPose measuredAcc measuredOmega).2))
              deltaT s.base.tangent).thetaRij *
          C.rot.rotInverse (C.rot.Expmap (deltaT •
            (C.correctMeasurementsByBiasAndSensorPose measuredAcc measuredOmega).2)) *
          C.rot.rightJacobianExpMapSO3 s.base.tangent.thetaRij)) := rfl
  refine ⟨?_, ?_, ?_, ?_, ?_, ?_, ?_, ?_, ?_⟩ <;> rw [hF, fromBlocks9_apply] <;> rfl

/-- Claim C3: in every call to `integrateMeasurement`, the bias-sensitivity
Jacobians are updated from the state *before* this sample's tangent-state
advance (`updatePreintegratedJacobians` is invoked at ImuFactor.cpp:85,
before `updatePreintegratedMeasurements` at cpp:95, so it receives the
original base state), and the covariance transition matrix uses the
pre-update rotation θ_i for the velocity-orientation coupling `H_vel_angles`
(cpp:90-92,100) and the post-update rotation θ_j for the inverse right
Jacobian in `H_angles_angles` (cpp:97-98,101). -/
theorem jacobian_update_ordering {α : Type} [LinearOrderedCommRing α]
    (C : Collaborators α) (s : PreintegratedMeasurements α)
    (measuredAcc measuredOmega : Vec3 α) (deltaT : α) (wantF wantG : Bool) :
    (integrateMeasurement C s measuredAcc measuredOmega deltaT wantF wantG).1.base.jacobians =
      C.updatePreintegratedJacobians
        (C.correctMeasurementsByBiasAndSensorPose measuredAcc measuredOmega).1
        (C.rot.rightJacobianExpMapSO3 (deltaT •
          (C.correctMeasurementsByBiasAndSensorPose measuredAcc measuredOmega).2))
        (C.rot.Expmap (deltaT •
          (C.correctMeasurementsByBiasAndSensorPose measuredAcc measuredOmega).2))
        deltaT s.base ∧
    (integrateMeasurement C s measuredAcc measuredOmega deltaT wantF wantG).1.base.tangent =
      C.updatePreintegratedMeasurements
        (C.correctMeasurementsByBiasAndSensorPose measuredAcc measuredOmega).1
        (C.rot.Expmap (deltaT •
          (C.correctMeasurementsByBiasAndSensorPose measuredAcc measuredOmega).2))
        deltaT s.base.tangent ∧
    (mkStepContext C s measuredAcc measuredOmega deltaT).theta_i =
      s.base.tangent.thetaRij ∧
    (mkStepContext C s measuredAcc measuredOmega deltaT).H_vel_angles =
      -(deltaT • (C.rot.Expmap s.base.tangent.thetaRij *
        skewSymmetric (C.correctMeasurementsByBiasAndSensorPose measuredAcc measuredOmega).1 *
        C.rot.rightJacobianExpMapSO3 s.base.tangent.thetaRij)) ∧
    (mkStepContext C s measuredAcc measuredOmega deltaT).theta_j =
      (C.updatePreintegratedMeasurements
        (C.correctMeasurementsByBiasAndSensorPose measuredAcc measuredOmega).1
        (C.rot.Expmap (deltaT •
          (C.correctMeasurementsByBiasAndSensorPose measuredAcc measuredOmega).2))
        deltaT s.base.tangent).thetaRij ∧
    (mkStepContext C s measuredAcc measuredOmega deltaT).H_angles_angles =
      C.rot.rightJacobianExpMapSO3inverse
          ((C.updatePreintegratedMeasurements
            (C.correctMeasurementsByBiasAndSensorPose measuredAcc measuredOmega).1
            (C.rot.Expmap (deltaT •
              (C.correctMeasurementsByBiasAndSensorPose measuredAcc measuredOmega).2))
            deltaT s.base.tangent).thetaRij) *
        C.rot.rotInverse (C.rot.Expmap (deltaT •
          (C.correctMeasurementsByBiasAndSensorPose measuredAcc measuredOmega).2)) *
        C.rot.rightJacobianExpMapSO3 s.base.tangent.thetaRij :=
  ⟨rfl, rfl, rfl, rfl, rfl, rfl⟩

/-- Claim C6: if the three configured covariance matrices are symmetric, the
accumulated covariance `preintMeasCov_` is symmetric after construction
(ImuFactor.cpp:44), after `resetIntegration` (cpp:64), and after every
`integrateMeasurement` call (the propagation `P ← F·P·Fᵀ + Q·Δt` at cpp:114
preserves symmetry), here stated for any sample stream folded through
`integrateMeasurement` from a freshly constructed object, plus the one-step
preservation itself. -/
theorem covariance_symmetry {α : Type} [LinearOrderedCommRing α]
    (C : Collaborators α) (bias : ConstantBias α)
    (accCov omegaCov intCov : Mat3 α) (flag : Bool)
    (s : PreintegratedMeasurements α)
    (ha : accCov.IsSymm) (hg : omegaCov.IsSymm) (hi : intCov.IsSymm) :
    ((mkPreintegratedMeasurements bias accCov omegaCov intCov flag).preintMeasCov_).IsSymm ∧
    ((resetIntegration s).preintMeasCov_).IsSymm ∧
    (∀ t : PreintegratedMeasurements α, ∀ measuredAcc measuredOmega : Vec3 α, ∀ deltaT : α,
      ∀ wantF wantG : Bool, t.preintMeasCov_.IsSymm → t.measurementCovariance_.IsSymm →
      ((integrateMeasurement C t measuredAcc measuredOmega deltaT wantF wantG).1.preintMeasCov_).IsSymm) ∧
    ∀ samples : List (Vec3 α × Vec3 α × α),
      ((samples.foldl (integrateStep C)
        (mkPreintegratedMeasurements bias accCov omegaCov intCov flag)).preintMeasCov_).IsSymm := by
  refine ⟨Matrix.isSymm_zero, Matrix.isSymm_zero,
    fun t measuredAcc measuredOmega deltaT wantF wantG hP hQ => ?_,
    fun samples => ?_⟩
  · exact propagation_isSymm _ _ _ _ hP hQ
  · exact foldl_integrate_isSymm C samples _ Matrix.isSymm_zero
      (measurementCovariance_isSymm intCov accCov omegaCov hi ha hg)

/-- Concrete instantiation of `covariance_symmetry`: the covariance after one
integer sample integrated into a fresh object is symmetric. -/
theorem covariance_symmetry_witness :
    ((([((0 : Vec3 ℤ), (0 : Vec3 ℤ), (1 : ℤ))].foldl (integrateStep trivialCollaborators)
      (mkPreintegratedMeasurements { accelerometer := 0, gyroscope := 0 } 1 1 1
        false)).preintMeasCov_)).IsSymm :=
  (covariance_symmetry trivialCollaborators { accelerometer := 0, gyroscope := 0 } 1 1 1
    false freshState Matrix.isSymm_one Matrix.isSymm_one Matrix.isSymm_one).2.2.2
    [((0 : Vec3 ℤ), (0 : Vec3 ℤ), (1 : ℤ))]

/-- Claim C7: `resetIntegration` (ImuFactor.cpp:62-65, base reset modelled
from spec §4.1) zeroes the tangent state, the accumulated covariance and the
bias-sensitivity Jacobians, and leaves the bias reference, the second-order
flag and the noise-model configuration `measurementCovariance_` unchanged. -/
theorem resetIntegration_effects {α : Type} [LinearOrderedCommRing α]
    (s : PreintegratedMeasurements α) :
    (resetIntegration s).base.tangent = zeroTangentState ∧
    (resetIntegration s).preintMeasCov_ = 0 ∧
    (resetIntegration s).base.jacobians = zeroBiasJacobians ∧
    (resetIntegration s).base.biasHat = s.base.biasHat ∧
    (resetIntegration s).measurementCovariance_ = s.measurementCovariance_ ∧
    (resetIntegration s).base.use2ndOrderIntegration = s.base.use2ndOrderIntegration :=
  ⟨rfl, rfl, rfl, rfl, rfl, rfl⟩

/-- Claim C10: the state produced by `integrateMeasurement` is identical
whether or not the optional `F_test`/`G_test` outputs are requested
(ImuFactor.cpp:117-132: they are written after the covariance propagation and
never read back); when requested, they hold exactly the transition matrix F
and the noise-input matrix G of this call. -/
theorem test_outputs_do_not_affect_state {α : Type} [LinearOrderedCommRing α]
    (C : Collaborators α) (s : PreintegratedMeasurements α)
    (measuredAcc measuredOmega : Vec3 α) (deltaT : α) :
    (∀ wantF wantG : Bool,
      (integrateMeasurement C s measuredAcc measuredOmega deltaT wantF wantG).1 =
        (integrateMeasurement C s measuredAcc measuredOmega deltaT false false).1) ∧
    (integrateMeasurement C s measuredAcc measuredOmega deltaT true true).2.1 =
      some (mkStepContext C s measuredAcc measuredOmega deltaT).F ∧
    (integrateMeasurement C s measuredAcc measuredOmega deltaT true true).2.2 =
      some (mkStepContext C s measuredAcc measuredOmega deltaT).G ∧
    (integrateMeasurement C s measuredAcc measuredOmega deltaT false false).2.1 = none ∧
    (integrateMeasurement C s measuredAcc measuredOmega deltaT false false).2.2 = none :=
  ⟨fun _ _ => rfl, rfl, rfl, rfl, rfl⟩

/-- Positive semidefiniteness of a 9×9 matrix via the quadratic form. -/
def IsPSD9 {α : Type} [LinearOrderedCommRing α] (M : Mat9 α) : Prop :=
  ∀ x : Fin 9 → α, 0 ≤ dotProduct x (M.mulVec x)

/-- Positive definiteness of a 3×3 matrix via the quadratic form. -/
def IsPosDef3 {α : Type} [LinearOrderedCommRing α] (M : Mat3 α) : Prop :=
  M.IsSymm ∧ ∀ x : Vec3 α, x ≠ 0 → 0 < dotProduct x (M.mulVec x)

/-- The identity noise block is positive definite. -/
theorem isPosDef3_one {α : Type} [LinearOrderedCommRing α] : IsPosDef3 (1 : Mat3 α) := by
  refine ⟨Matrix.isSymm_one, fun x hx => ?_⟩
  rw [Matrix.one_mulVec]
  obtain ⟨i, hi⟩ : ∃ i, x i ≠ 0 := by
    by_contra hc
    push_neg at hc
    exact hx (funext hc)
  have hpos : (0:α) < x i * x i := mul_self_pos.mpr hi
  have hle : x i * x i ≤ ∑ j, x j * x j :=
    Finset.single_le_sum (fun j _ => mul_self_nonneg (x j)) (Finset.mem_univ i)
  simp only [dotProduct]
  exact lt_of_lt_of_le hpos hle

/-- `trace (F·P·Fᵀ)` is a sum of quadratic-form values of `P` at the rows of
`F`, hence nonnegative for positive semidefinite `P`. -/
theorem trace_conj_nonneg {α : Type} [LinearOrderedCommRing α]
    (F P : Mat9 α) (hP : IsPSD9 P) : 0 ≤ Matrix.trace (F * P * F.transpose) := by
  have h : ∀ i : Fin 9, (F * P * F.transpose) i i =
      dotProduct (fun k => F i k) (P.mulVec fun k => F i k) := by
    intro i
    simp only [Matrix.mul_apply, Matrix.transpose_apply, dotProduct, Matrix.mulVec,
      Finset.sum_mul, Finset.mul_sum]
    rw [Finset.sum_comm]
    exact Finset.sum_congr rfl fun k _ => Finset.sum_congr rfl fun j _ => by ring
  have htr : Matrix.trace (F * P * F.transpose) = ∑ i : Fin 9, (F * P * F.transpose) i i := rfl
  rw [htr]
  refine Finset.sum_nonneg fun i _ => ?_
  rw [h i]
  exact hP _

/-- Block address of a 9-index: its block number `p / 3`. -/
def bOf (p : Fin 9) : Fin 3 := ⟨p.val / 3, by omega⟩

/-- Within-block address of a 9-index: `p % 3`. -/
def iOf (p : Fin 9) : Fin 3 := ⟨p.val % 3, by omega⟩

/-- Every 9-index is the block address it decomposes into. -/
theorem bIdx_eta : ∀ p : Fin 9, bIdx (bOf p) (iOf p) = p := by decide

/-- The block-address bijection between `Fin 3 × Fin 3` and `Fin 9`. -/
def bIdxEquiv : Fin 3 × Fin 3 ≃ Fin 9 :=
  { toFun := fun x => bIdx x.1 x.2
    invFun := fun p => (bOf p, iOf p)
    left_inv := by decide
    right_inv := by decide }

/-- A sum over `Fin 9` splits into a double sum over block addresses. -/
theorem sum_bIdx {α : Type} [AddCommMonoid α] (f : Fin 9 → α) :
    ∑ p, f p = ∑ b : Fin 3, ∑ i : Fin 3, f (bIdx b i) := by
  have h1 : ∑ p, f p = ∑ x : Fin 3 × Fin 3, f (bIdxEquiv x) :=
    (Fintype.sum_equiv bIdxEquiv (fun x => f (bIdxEquiv x)) f fun x => rfl).symm
  rw [h1]
  exact Fintype.sum_prod_type _

/-- Transpose acts blockwise on `fromBlocks9`. -/
theorem transpose_fromBlocks9 {α : Type} (M : Fin 3 → Fin 3 → Mat3 α) :
    (fromBlocks9 M).transpose = fromBlocks9 (fun b1 b2 => (M b2 b1).transpose) := by
  ext p q
  rw [Matrix.transpose_apply, ← bIdx_eta p, ← bIdx_eta q, fromBlocks9_apply,
    fromBlocks9_apply]
  rfl

/-- Matrix multiplication acts blockwise on `fromBlocks9`. -/
theorem fromBlocks9_mul {α : Type} [LinearOrderedCommRing α]
    (M N : Fin 3 → Fin 3 → Mat3 α) :
    fromBlocks9 M * fromBlocks9 N =
      fromBlocks9 (fun b1 b2 => ∑ k : Fin 3, M b1 k * N k b2) := by
  ext p q
  rw [← bIdx_eta p, ← bIdx_eta q]
  simp only [Matrix.mul_apply, Matrix.sum_apply]
  rw [sum_bIdx]
  simp only [fromBlocks9_apply]
  rw [Matrix.sum_apply]
  exact Finset.sum_congr rfl fun k _ => by rw [Matrix.mul_apply]

/-- The trace of a block matrix is the sum of the traces of its diagonal
blocks. -/
theorem trace_fromBlocks9 {α : Type} [AddCommMonoid α] (M : Fin 3 → Fin 3 → Mat3 α) :
    Matrix.trace (fromBlocks9 M) = ∑ b : Fin 3, Matrix.trace (M b b) := by
  have h1 : Matrix.trace (fromBlocks9 M) = ∑ p, fromBlocks9 M p p := rfl
  rw [h1, sum_bIdx]
  refine Finset.sum_congr rfl fun b _ => ?_
  have h2 : Matrix.trace (M b b) = ∑ i, M b b i i := rfl
  rw [h2]
  exact Finset.sum_congr rfl fun i _ => by rw [fromBlocks9_apply]

/-- A block-diagonal `fromBlocks9` whose diagonal blocks have nonnegative
quadratic forms is positive semidefinite. -/
theorem isPSD9_blockDiag {α : Type} [LinearOrderedCommRing α] (D : Fin 3 → Mat3 α)
    (hD : ∀ b, ∀ y : Vec3 α, 0 ≤ dotProduct y ((D b).mulVec y)) :
    IsPSD9 (fromBlocks9 (fun b1 b2 => if b1 = b2 then D b1 else 0)) := by
  intro x
  have h1 : ∀ b i, (fromBlocks9 (fun b1 b2 => if b1 = b2 then D b1 else 0)).mulVec x (bIdx b i) =
      (D b).mulVec (fun j => x (bIdx b j)) i := by
    intro b i
    have h2 : (fromBlocks9 (fun b1 b2 => if b1 = b2 then D b1 else 0)).mulVec x (bIdx b i) =
        ∑ q, fromBlocks9 (fun b1 b2 => if b1 = b2 then D b1 else 0) (bIdx b i) q * x q := rfl
    rw [h2, sum_bIdx]
    have h3 : (D b).mulVec (fun j => x (bIdx b j)) i = ∑ j, D b i j * x (bIdx b j) := rfl
    rw [h3, Finset.sum_eq_single b]
    · exact Finset.sum_congr rfl fun j _ => by rw [fromBlocks9_apply, if_pos rfl]
    · intro c _ hc
      refine Finset.sum_eq_zero fun j _ => ?_
      rw [fromBlocks9_apply, if_neg (Ne.symm hc)]
      simp
    · intro hmem
      exact absurd (Finset.mem_univ b) hmem
  have h4 : dotProduct x ((fromBlocks9 (fun b1 b2 => if b1 = b2 then D b1 else 0)).mulVec x) =
      ∑ p, x p * (fromBlocks9 (fun b1 b2 => if b1 = b2 then D b1 else 0)).mulVec x p := rfl
  rw [h4, sum_bIdx]
  refine Finset.sum_nonneg fun b _ => ?_
  have h5 : ∑ i, x (bIdx b i) * (fromBlocks9 (fun b1 b2 => if b1 = b2 then D b1 else 0)).mulVec x (bIdx b i) =
      dotProduct (fun j => x (bIdx b j)) ((D b).mulVec (fun j => x (bIdx b j))) := by
    exact Finset.sum_congr rfl fun i _ => by rw [h1 b i]
  rw [h5]
  exact hD b _

/-- The so(3) coordinates `(π, 0, 0)` of a half-turn rotation about the
x-axis: a canonical minimal-coordinates value (the range of `Log` is the
closed ball of radius π, so a half turn is exactly representable). -/
noncomputable def piX : Vec3 ℝ := fun i => if i = 0 then Real.pi else 0

/-- The exact rotation matrix `Exp(π·e₁) = diag(1,−1,−1)` (also equal to
`Exp(π·e₁)·Exp(π·e₁)⁻¹`-side values used below; a half turn about x). -/
def RxPi : Mat3 ℝ := !![1, 0, 0; 0, -1, 0; 0, 0, -1]

/-- The exact right Jacobian at a half turn about x: from
`Jr(θ) = I − ((1−cos φ)/φ²)·skew(θ) + ((φ−sin φ)/φ³)·skew(θ)²` at
`θ = (π,0,0)`, `Jr = diag(1,0,0) − (2/π)·skew(e₁)`. -/
noncomputable def JrPiX : Mat3 ℝ :=
  !![1, 0, 0; 0, 0, 2 / Real.pi; 0, -(2 / Real.pi), 0]

/-- The product `Exp(π·e₁)ᵀ · Jr(π·e₁)`, i.e. the orientation block
`Jr⁻¹(θ_j)·Rincr⁻¹·Jr(θ_i)` of F in the half-turn scenario. -/
noncomputable def HaaPiX : Mat3 ℝ :=
  !![1, 0, 0; 0, 0, -(2 / Real.pi); 0, 2 / Real.pi, 0]

/-- Collaborator instantiation for the half-turn scenario, agreeing with the
real rotation library at every input it receives in that scenario:
`Expmap` is applied only to `1·(π,0,0)` (the increment) and `(π,0,0)` (the
accumulated rotation), both mapping to `diag(1,−1,−1)` exactly;
`rightJacobianExpMapSO3` is applied only to those same coordinates, where
the exact value is `JrPiX`; `rightJacobianExpMapSO3inverse` is applied only
to the post-update coordinates `0 = Log(Exp(π·e₁)·Exp(π·e₁)) = Log(I)`,
where the inverse right Jacobian is the identity (the extraction is
well-defined at the identity, spec §7); rotation inversion is the transpose
(exact on SO(3)); the bias is zero, so measurement correction is the
identity; and the tangent advance stores the minimal coordinates `0` of the
post-update rotation `Exp(π·e₁)·Exp(π·e₁) = I`.  The bias-Jacobian update is
held fixed: its value does not enter the covariance propagation. -/
noncomputable def cxCollaborators : Collaborators ℝ :=
  { rot := { Expmap := fun _ => RxPi,
             rightJacobianExpMapSO3 := fun _ => JrPiX,
             rightJacobianExpMapSO3inverse := fun _ => 1,
             rotInverse := fun M => M.transpose },
    correctMeasurementsByBiasAndSensorPose := fun a w => (a, w),
    updatePreintegratedJacobians := fun _ _ _ _ s => s.jacobians,
    updatePreintegratedMeasurements := fun _ _ _ t => { t with thetaRij := 0 } }

/-- Diagonal blocks of the accumulated covariance in the counterexample:
unit position variance, velocity variance 2, orientation variance 100 (the
shape produced by dominant gyro-noise accumulation), no cross-correlation. -/
def cxCovDiag : Fin 3 → Mat3 ℝ :=
  fun b =>
    if b = 0 then 1
    else if b = 1 then Matrix.diagonal (fun _ => 2)
    else Matrix.diagonal (fun _ => 100)

/-- Counterexample state: identity noise blocks (positive definite), zero
bias, accumulated rotation `(π,0,0)` — a canonical `Log` value — and the
block-diagonal accumulated covariance `cxCovDiag`. -/
noncomputable def cxState : PreintegratedMeasurements ℝ :=
  { base := { biasHat := { accelerometer := 0, gyroscope := 0 },
              use2ndOrderIntegration := false,
              tangent := { deltaPij := 0, deltaVij := 0, thetaRij := piX, deltaTij := 0 },
              jacobians := zeroBiasJacobians },
    measurementCovariance_ := fromBlocks9 (measCovBlocks 1 1 1),
    preintMeasCov_ := fromBlocks9 (fun b1 b2 => if b1 = b2 then cxCovDiag b1 else 0) }

/-- The counterexample covariance is positive semidefinite. -/
theorem cxState_cov_isPSD : IsPSD9 cxState.preintMeasCov_ := by
  refine isPSD9_blockDiag cxCovDiag fun b y => ?_
  fin_cases b
  · show 0 ≤ dotProduct y ((cxCovDiag 0).mulVec y)
    have h1 : (cxCovDiag 0).mulVec y = y := by
      rw [show cxCovDiag 0 = 1 from rfl, Matrix.one_mulVec]
    rw [h1]
    simp only [dotProduct]
    exact Finset.sum_nonneg fun i _ => mul_self_nonneg (y i)
  · show 0 ≤ dotProduct y ((cxCovDiag 1).mulVec y)
    have h1 : (cxCovDiag 1).mulVec y = fun i => 2 * y i := by
      funext i
      exact Matrix.mulVec_diagonal _ y i
    rw [h1]
    simp only [dotProduct]
    refine Finset.sum_nonneg fun i _ => ?_
    nlinarith [mul_self_nonneg (y i)]
  · show 0 ≤ dotProduct y ((cxCovDiag 2).mulVec y)
    have h1 : (cxCovDiag 2).mulVec y = fun i => 100 * y i := by
      funext i
      exact Matrix.mulVec_diagonal _ y i
    rw [h1]
    simp only [dotProduct]
    refine Finset.sum_nonneg fun i _ => ?_
    nlinarith [mul_self_nonneg (y i)]

/-- The half-turn rotation matrix is symmetric. -/
theorem RxPi_transpose : RxPi.transpose = RxPi := by
  ext i j
  fin_cases i <;> fin_cases j <;> rfl

/-- The skew matrix of the zero vector vanishes. -/
theorem skewSymmetric_zero : skewSymmetric (0 : Vec3 ℝ) = 0 := by
  ext i j
  fin_cases i <;> fin_cases j <;>
    simp [skewSymmetric, Matrix.vecHead, Matrix.vecTail, Function.comp]

/-- Orientation block of F in the half-turn scenario:
`Exp(π·e₁) · Jr(π·e₁) = HaaPiX`. -/
theorem RxPi_mul_JrPiX : RxPi * JrPiX = HaaPiX := by
  ext i j
  fin_cases i <;> fin_cases j <;>
    simp [RxPi, JrPiX, HaaPiX, Matrix.mul_apply, Fin.sum_univ_three,
      Matrix.vecHead, Matrix.vecTail, Function.comp]

/-- Trace of the propagated orientation block in the half-turn scenario. -/
theorem trace_Haa_block :
    Matrix.trace (HaaPiX * Matrix.diagonal (fun _ => (100:ℝ)) * HaaPiX.transpose) =
      100 + 800 / Real.pi ^ 2 := by
  rw [Matrix.trace_fin_three]
  simp [HaaPiX, Matrix.mul_apply, Fin.sum_univ_three, Matrix.diagonal_apply,
    Matrix.transpose_apply, Matrix.vecHead, Matrix.vecTail, Function.comp]
  field_simp
  ring

/-- Claim C5 counterexample: with positive-definite per-sample noise
(identity blocks), a positive-semidefinite accumulated covariance and a
canonical accumulated rotation of a half turn about x, a single
`integrateMeasurement` call with one more measured half turn strictly
DECREASES `trace(P)`.  Every rotation-library value used is the library's
exact value at the inputs of this call (`Exp(π·e₁) = diag(1,−1,−1)`,
`Jr(π·e₁) = diag(1,0,0) − (2/π)·skew(e₁)`, `θ_j = Log(I) = 0`,
`Jr⁻¹(0) = I`); the orientation block `Jr⁻¹(θ_j)·Rincr⁻¹·Jr(θ_i) = HaaPiX`
of F is contractive, and the trace drops from `309` to
`124 + 800/π² < 206`. -/
theorem trace_monotonicity_counterexample :
    IsPosDef3 (1 : Mat3 ℝ) ∧ IsPSD9 cxState.preintMeasCov_ ∧
    Matrix.trace ((integrateMeasurement cxCollaborators cxState 0 piX 1
        false false).1.preintMeasCov_) < Matrix.trace cxState.preintMeasCov_ := by
  refine ⟨isPosDef3_one, cxState_cov_isPSD, ?_⟩
  have hres : (integrateMeasurement cxCollaborators cxState 0 piX 1 false false).1.preintMeasCov_ =
      (mkStepContext cxCollaborators cxState 0 piX 1).F * cxState.preintMeasCov_ *
        (mkStepContext cxCollaborators cxState 0 piX 1).F.transpose +
        (1:ℝ) • cxState.measurementCovariance_ := rfl
  have hHva : (mkStepContext cxCollaborators cxState 0 piX 1).H_vel_angles = 0 := by
    show -((1:ℝ) • (RxPi * skewSymmetric (0 : Vec3 ℝ) * JrPiX)) = 0
    rw [skewSymmetric_zero, Matrix.mul_zero, Matrix.zero_mul, smul_zero, neg_zero]
  have hHaa : (mkStepContext cxCollaborators cxState 0 piX 1).H_angles_angles = HaaPiX := by
    show (1 : Mat3 ℝ) * RxPi.transpose * JrPiX = HaaPiX
    rw [Matrix.one_mul, RxPi_transpose, RxPi_mul_JrPiX]
  have hF : (mkStepContext cxCollaborators cxState 0 piX 1).F =
      fromBlocks9 (FBlocks 1 0 HaaPiX) := by
    have h0 : (mkStepContext cxCollaborators cxState 0 piX 1).F =
        fromBlocks9 (FBlocks 1 (mkStepContext cxCollaborators cxState 0 piX 1).H_vel_angles
          (mkStepContext cxCollaborators cxState 0 piX 1).H_angles_angles) := rfl
    rw [h0, hHva, hHaa]
  have hP : cxState.preintMeasCov_ =
      fromBlocks9 (fun b1 b2 => if b1 = b2 then cxCovDiag b1 else 0) := rfl
  have hQ : cxState.measurementCovariance_ = fromBlocks9 (measCovBlocks 1 1 1) := rfl
  rw [hres, hF, hP, hQ, one_smul, Matrix.trace_add, transpose_fromBlocks9,
    fromBlocks9_mul, fromBlocks9_mul]
  rw [trace_fromBlocks9, trace_fromBlocks9, trace_fromBlocks9]
  rw [Fin.sum_univ_three, Fin.sum_univ_three, Fin.sum_univ_three]
  simp only [Fin.sum_univ_three]
  simp only [FBlocks, measCovBlocks, cxCovDiag]
  simp
  rw [trace_Haa_block, Matrix.trace_diagonal, Matrix.trace_diagonal]
  simp only [Fin.sum_univ_three]
  have key : 800 / Real.pi ^ 2 < 185 := by
    rw [div_lt_iff₀ (by positivity)]
    nlinarith [Real.pi_gt_three]
  linarith

/-- Claim C5 (amended): for a positive-semidefinite accumulated covariance,
each `integrateMeasurement` call leaves `trace(P)` at least
`Δt·trace(measurementCovariance_)` — the propagated term `F·P·Fᵀ` contributes
a nonnegative trace — but `trace(P)` need not be at least its pre-call value,
since the orientation block of F can be contractive. -/
theorem trace_lower_bound {α : Type} [LinearOrderedCommRing α]
    (C : Collaborators α) (s : PreintegratedMeasurements α)
    (measuredAcc measuredOmega : Vec3 α) (deltaT : α) (wantF wantG : Bool)
    (hP : IsPSD9 s.preintMeasCov_) :
    deltaT * Matrix.trace s.measurementCovariance_ ≤
      Matrix.trace ((integrateMeasurement C s measuredAcc measuredOmega deltaT
        wantF wantG).1.preintMeasCov_) := by
  have h1 : (integrateMeasurement C s measuredAcc measuredOmega deltaT
        wantF wantG).1.preintMeasCov_ =
      (mkStepContext C s measuredAcc measuredOmega deltaT).F * s.preintMeasCov_ *
        (mkStepContext C s measuredAcc measuredOmega deltaT).F.transpose +
        deltaT • s.measurementCovariance_ := rfl
  rw [h1, Matrix.trace_add, Matrix.trace_smul, smul_eq_mul]
  have h2 := trace_conj_nonneg (mkStepContext C s measuredAcc measuredOmega deltaT).F
    s.preintMeasCov_ hP
  linarith

/-- Concrete instantiation of `trace_lower_bound` at a fresh integer state. -/
theorem trace_lower_bound_witness :
    (1 : ℤ) * Matrix.trace freshState.measurementCovariance_ ≤
      Matrix.trace ((integrateMeasurement trivialCollaborators freshState 0 0 1
        false false).1.preintMeasCov_) :=
  trace_lower_bound trivialCollaborators freshState 0 0 1 false false
    (fun x => by
      rw [show freshState.preintMeasCov_ = 0 from rfl, Matrix.zero_mulVec, dotProduct_zero])

/-- Claim C8 (amended): `integrateMeasurement` performs no validation of
`deltaT` (there is no check anywhere in ImuFactor.cpp:68-133): a sample with
`deltaT ≤ 0` is processed normally, with the supplied non-positive value used
verbatim in the covariance propagation — no error is raised and no clamping
occurs. -/
theorem nonpositive_deltaT_used_verbatim {α : Type} [LinearOrderedCommRing α]
    (C : Collaborators α) (s : PreintegratedMeasurements α)
    (measuredAcc measuredOmega : Vec3 α) (deltaT : α) (wantF wantG : Bool)
    (h : deltaT ≤ 0) :
    (integrateMeasurement C s measuredAcc measuredOmega deltaT wantF wantG).1.preintMeasCov_ =
      (mkStepContext C s measuredAcc measuredOmega deltaT).F * s.preintMeasCov_ *
        (mkStepContext C s measuredAcc measuredOmega deltaT).F.transpose +
        deltaT • s.measurementCovariance_ ∧
    (integrateMeasurement C s measuredAcc measuredOmega deltaT wantF wantG).1.base =
      (mkStepContext C s measuredAcc measuredOmega deltaT).baseAfterMeasurements :=
  ⟨rfl, rfl⟩

/-- Concrete instantiation of `nonpositive_deltaT_used_verbatim` at
`deltaT = -1`. -/
theorem nonpositive_deltaT_used_verbatim_witness :
    (integrateMeasurement trivialCollaborators freshState 0 0 (-1 : ℤ)
        false false).1.preintMeasCov_ =
      (mkStepContext trivialCollaborators freshState 0 0 (-1 : ℤ)).F *
        freshState.preintMeasCov_ *
        (mkStepContext trivialCollaborators freshState 0 0 (-1 : ℤ)).F.transpose +
        (-1 : ℤ) • freshState.measurementCovariance_ :=
  (nonpositive_deltaT_used_verbatim trivialCollaborators freshState 0 0 (-1) false false
    (by norm_num)).1

/-- Claim C8 counterexample: a concrete call with `deltaT = -1 ≤ 0` completes
and returns a value computed with the non-positive `deltaT` as supplied — the
(0,0) entry of the resulting "covariance" is the negative number `-1`
(`F·0·Fᵀ + (-1)·Q` at a fresh state) — rather than failing fatally or
clamping `deltaT`. -/
theorem deltaT_validation_counterexample :
    (-1 : ℤ) ≤ 0 ∧
    (integrateMeasurement trivialCollaborators freshState 0 0 (-1 : ℤ)
        false false).1.preintMeasCov_ 0 0 = -1 :=
  ⟨by norm_num, by decide⟩
